import Mathlib

/-!
Formal model of `apps/api/prisma/extract-excel.py`.

The script reads a spreadsheet workbook and emits a normalized JSON document
of products, families and statistics.  We embed the pure transformation
pipeline: unit-string parsing (`parse_unit`, `parse_base_unit`), scalar
coercions (`safe_float`, `safe_str`), the static sheet schema table
(`SHEETS`), the row extractor / aggregator (`processRow`, `runExtract`)
and the report builder (`buildOutput`).

Numbers are modelled as rationals (`ℚ`); Python exceptions are modelled with
`Except PyErr`.  Spreadsheet cells are `Cell` (absent, text, or numeric).
-/

/-- The closed unit enumeration used by the extractor. -/
inductive CanonicalUnit
  | KG | LT | ML | GR | UN | PORCIONES
  | BANDEJAS | CAJAS | BIDONES | FRASCOS | PAQUETES | POTES
  | ROLLOS | SOBRES | MALLAS | BOLSAS | BOTELLAS | TARROS | SACOS
  deriving DecidableEq

/-- Python exceptions that the script can raise while extracting:
`valueError` from `float(...)`, `keyError` from `wb[sheet_name]`. -/
inductive PyErr
  | valueError
  | keyError
  deriving DecidableEq

/-- Python `\s` whitespace characters (ASCII range). -/
def isPyWs (c : Char) : Bool :=
  c == ' ' || c == '\t' || c == '\n' || c == '\r' || c == '\x0b' || c == '\x0c'

/-- The regex class `\d` (ASCII digits `0`-`9`). -/
def isDigitCh (c : Char) : Bool := 48 ≤ c.toNat && c.toNat ≤ 57

/-- Characters matched by the regex class `[\d.,]`. -/
def isNumChar (c : Char) : Bool :=
  isDigitCh c || c == '.' || c == ','

/-- Python `str.strip()`: drop leading and trailing whitespace. -/
def pyStrip (l : List Char) : List Char :=
  ((l.dropWhile isPyWs).reverse.dropWhile isPyWs).reverse

/-- Python `str.upper()` (ASCII letters, which is all the script compares). -/
def pyUpper (l : List Char) : List Char := l.map Char.toUpper

/-- Python `str.lower()` (ASCII letters, which is all the script compares). -/
def pyLower (l : List Char) : List Char := l.map Char.toLower

/-- The decimal digit character for `d < 10`. -/
def digitChar (d : Nat) : Char := Char.ofNat (48 + d)

/-- Value of a list of decimal digit characters. -/
def digitsToNat (l : List Char) : Nat :=
  l.foldl (fun a c => a * 10 + (c.toNat - 48)) 0

/-- Decimal rendering of `n`, fuelled structural recursion. -/
def natDecAux : Nat → Nat → List Char
  | 0, _ => []
  | fuel + 1, n => if n = 0 then [] else natDecAux fuel (n / 10) ++ [digitChar (n % 10)]

/-- Decimal rendering of a natural number, as in Python `f"{n}"`. -/
def natDecimal (n : Nat) : List Char :=
  if n = 0 then ['0'] else natDecAux n n

/-- The `.replace(",", ".")` applied to a matched numeric group. -/
def dotNorm (l : List Char) : List Char :=
  l.map (fun c => if c == ',' then '.' else c)

/-- Digits before the (first) dot. -/
def intPartChars (g : List Char) : List Char := g.takeWhile (fun c => !(c == '.'))

/-- Digits after the (first) dot. -/
def fracPartChars (g : List Char) : List Char :=
  (g.dropWhile (fun c => !(c == '.'))).tail

/-- Value of a digits-and-dot string such as `5`, `0.789`, `5.`, `.5`. -/
def ddVal (g : List Char) : ℚ :=
  (digitsToNat (intPartChars g) : ℚ) +
    (digitsToNat (fracPartChars g) : ℚ) / (10 : ℚ) ^ (fracPartChars g).length

/-- Python `float(g.replace(",", "."))` on a regex group `g` matched by
`[\d.,]+`: succeeds iff after normalization there is at most one dot and at
least one digit; otherwise `float` raises `ValueError` (modelled `none`). -/
def pyFloatDD (g0 : List Char) : Option ℚ :=
  if (∀ c ∈ dotNorm g0, isDigitCh c = true ∨ c = '.') ∧
      (dotNorm g0).countP (fun c => c == '.') ≤ 1 ∧
      (dotNorm g0).any isDigitCh = true then
    some (ddVal (dotNorm g0))
  else none

/-- One pattern row of `parse_unit`: keyword, whether the whitespace after the
keyword is `\s*` (else `\s+`), whether an optional `[xX]` infix is accepted,
and whether a literal `KG` suffix is required. -/
structure PatSpec where
  kw : List Char
  wsOpt : Bool
  xInfix : Bool
  needsKG : Bool

/-- Match a literal keyword prefix, returning the rest of the input. -/
def stripKw : List Char → List Char → Option (List Char)
  | [], l => some l
  | _ :: _, [] => none
  | k :: ks, c :: cs => if c = k then stripKw ks cs else none

/-- The `\s+` (or `\s*` when `opt`) step after the keyword. -/
def wsStep (opt : Bool) (l : List Char) : Option (List Char) :=
  if opt then some (l.dropWhile isPyWs)
  else
    match l with
    | [] => none
    | c :: cs => if isPyWs c then some (cs.dropWhile isPyWs) else none

/-- The optional `[xX]?\s*` infix of the PAQUETE pattern. -/
def xStep (x : Bool) (l : List Char) : List Char :=
  if x then
    match l with
    | c :: cs => if c = 'x' ∨ c = 'X' then cs.dropWhile isPyWs else l
    | [] => l
  else l

/-- The mandatory `\s*KG` suffix of the weight patterns. -/
def checkKG (l : List Char) : Bool :=
  match l.dropWhile isPyWs with
  | 'K' :: 'G' :: _ => true
  | _ => false

/-- Run one regex pattern against the (stripped, uppercased) unit string,
returning the numeric group on a match.  `re.match` anchors at the start
only, so input remaining after the pattern is ignored. -/
def runPat (p : PatSpec) (l : List Char) : Option (List Char) :=
  (stripKw p.kw l).bind fun r1 =>
    (wsStep p.wsOpt r1).bind fun r2 =>
      if (xStep p.xInfix r2).takeWhile isNumChar = [] then none
      else if p.needsKG then
        (if checkKG ((xStep p.xInfix r2).drop
            ((xStep p.xInfix r2).takeWhile isNumChar).length) then
          some ((xStep p.xInfix r2).takeWhile isNumChar)
        else none)
      else some ((xStep p.xInfix r2).takeWhile isNumChar)

/-- The `direct` literal mapping table of `parse_unit`. -/
def directTable : List (List Char × CanonicalUnit) :=
  [("KG".data, .KG), ("KILO".data, .KG),
   ("L".data, .LT), ("LITRO".data, .LT),
   ("ML".data, .ML),
   ("G".data, .GR),
   ("UN".data, .UN), ("UND".data, .UN), ("UNIDAD".data, .UN),
   ("PORCIONES".data, .PORCIONES),
   ("BANDEJA".data, .BANDEJAS),
   ("CAJA".data, .CAJAS),
   ("BIDON".data, .BIDONES),
   ("FRASCO".data, .FRASCOS),
   ("PAQUETE".data, .PAQUETES), ("PAQUET".data, .PAQUETES),
   ("POTE".data, .POTES),
   ("ROLLO".data, .ROLLOS),
   ("SOBRE".data, .SOBRES),
   ("MALLA".data, .MALLAS),
   ("REBANADAS".data, .UN),
   ("PIT".data, .UN)]

/-- Dictionary lookup in the `direct` table. -/
def directLookup (s : List Char) : Option CanonicalUnit :=
  (directTable.find? (fun e => e.1 == s)).map (fun e => e.2)

def PAT_BIDON : PatSpec := ⟨"BIDON".data, false, false, false⟩
def PAT_BOLSA : PatSpec := ⟨"BOLSA".data, false, false, true⟩
def PAT_BOTELLA : PatSpec := ⟨"BOTELLA".data, false, false, false⟩
def PAT_BANDEJA : PatSpec := ⟨"BANDEJA".data, false, false, false⟩
def PAT_PAQUETE : PatSpec := ⟨"PAQUETE".data, true, true, false⟩
def PAT_FRASCO : PatSpec := ⟨"FRASCO".data, true, false, true⟩
def PAT_POTE : PatSpec := ⟨"POTE".data, false, false, true⟩
def PAT_TARRO : PatSpec := ⟨"TARRO".data, false, false, true⟩
def PAT_SACO : PatSpec := ⟨"SACO".data, false, false, true⟩
def PAT_UNIDAD : PatSpec := ⟨"UNIDAD".data, false, false, true⟩

/-- The ten regex rules of `parse_unit`, in source order. -/
def patList : List (PatSpec × CanonicalUnit) :=
  [(PAT_BIDON, .BIDONES), (PAT_BOLSA, .BOLSAS), (PAT_BOTELLA, .BOTELLAS),
   (PAT_BANDEJA, .BANDEJAS), (PAT_PAQUETE, .PAQUETES), (PAT_FRASCO, .FRASCOS),
   (PAT_POTE, .POTES), (PAT_TARRO, .TARROS), (PAT_SACO, .SACOS),
   (PAT_UNIDAD, .UN)]

/-- Try the pattern rules in order; first match wins; a matched group that
`float` cannot parse raises `ValueError`. -/
def tryPats : List (PatSpec × CanonicalUnit) → List Char → Except PyErr (CanonicalUnit × ℚ)
  | [], _ => .ok (.UN, 1)
  | (p, u) :: rest, l =>
    match runPat p l with
    | some g =>
      (match pyFloatDD g with
       | some q => .ok (u, q)
       | none => .error .valueError)
    | none => tryPats rest l

/-- `parse_unit`: map an Excel order-unit string to a canonical unit and a
conversion factor.  Empty input gives `(UN, 1)`; then the stripped,
uppercased string is looked up in the `direct` table; then the regex rules
are tried in order; on no match the result is `(UN, 1)`. -/
def parse_unit (raw : String) : Except PyErr (CanonicalUnit × ℚ) :=
  if raw = "" then .ok (.UN, 1)
  else
    match directLookup (pyUpper (pyStrip raw.data)) with
    | some u => .ok (u, 1)
    | none => tryPats patList (pyUpper (pyStrip raw.data))

/-- The literal mapping table of `parse_base_unit` (keys lower-case). -/
def baseTable : List (List Char × CanonicalUnit) :=
  [("kg".data, .KG), ("kilo".data, .KG),
   ("l".data, .LT), ("litro".data, .LT),
   ("ml".data, .ML),
   ("g".data, .GR),
   ("un".data, .UN), ("und".data, .UN), ("unidad".data, .UN),
   ("porciones".data, .PORCIONES)]

/-- `parse_base_unit`: map the base measurement unit column to an enum; any
miss (including empty input) yields `UN`. -/
def parse_base_unit (raw : String) : CanonicalUnit :=
  if raw = "" then .UN
  else
    match (baseTable.find? (fun e => e.1 == pyLower (pyStrip raw.data))).map (fun e => e.2) with
    | some u => u
    | none => .UN

/-- Round-half-to-even on rationals, as Python `round` does on exact values. -/
def roundHalfEven (q : ℚ) : ℤ :=
  if q - (⌊q⌋ : ℚ) < 1 / 2 then ⌊q⌋
  else if 1 / 2 < q - (⌊q⌋ : ℚ) then ⌊q⌋ + 1
  else if ⌊q⌋ % 2 = 0 then ⌊q⌋ else ⌊q⌋ + 1

/-- Python `round(q, 4)`. -/
def round4 (q : ℚ) : ℚ := (roundHalfEven (q * 10000) : ℚ) / 10000

/-- A spreadsheet cell as seen through `values_only=True`: absent (`None`),
a text value, or a numeric value. -/
inductive Cell
  | none
  | str (s : String)
  | num (q : ℚ)
  deriving DecidableEq

/-- Fractional decimal digits of `n / d`, fuelled. -/
def fracDigitsAux : Nat → Nat → Nat → List Char
  | 0, _, _ => []
  | fuel + 1, n, d =>
    if n = 0 then [] else digitChar (10 * n / d % 10) :: fracDigitsAux fuel (10 * n % d) d

/-- Decimal rendering of a numeric cell, modelling Python `str` on the cell
value (finitely many fractional digits; no claim depends on the exact text). -/
def pyNumRepr (q : ℚ) : String :=
  let sign := if q < 0 then "-" else ""
  let n := q.num.natAbs
  if q.den = 1 then sign ++ String.mk (natDecimal n) ++ ".0"
  else
    sign ++ String.mk (natDecimal (n / q.den)) ++ "." ++
      String.mk (fracDigitsAux 17 (n % q.den) q.den)

/-- `safe_str`: convert a cell to a stripped string; `None` becomes `""`. -/
def safe_str (c : Cell) : String :=
  match c with
  | .none => ""
  | .str s => String.mk (pyStrip s.data)
  | .num q => String.mk (pyStrip (pyNumRepr q).data)

deriving instance DecidableEq for Except

/-- Python `float(s)` on a string: strip whitespace, optional sign, decimal
mantissa, optional exponent.  Exotic forms (`inf`, `nan`, underscore digit
separators) are modelled as unparsable. -/
def pyFloatCore (cs : List Char) : Option ℚ :=
  let ip := cs.takeWhile isDigitCh
  let r1 := cs.dropWhile isDigitCh
  let hasDot := r1.headD ' ' = '.'
  let r1' := if hasDot then r1.tail else r1
  let fp := if hasDot then r1'.takeWhile isDigitCh else []
  let r2 := if hasDot then r1'.dropWhile isDigitCh else r1'
  if ip = [] ∧ fp = [] then none
  else
    let mant : ℚ := (digitsToNat ip : ℚ) + (digitsToNat fp : ℚ) / (10 : ℚ) ^ fp.length
    match r2 with
    | [] => some mant
    | 'e' :: rest =>
      let sgn : ℤ := if rest.headD ' ' = '-' then -1 else 1
      let rest' := if rest.headD ' ' = '-' ∨ rest.headD ' ' = '+' then rest.tail else rest
      let ds := rest'.takeWhile isDigitCh
      if ds = [] ∨ rest'.dropWhile isDigitCh ≠ [] then none
      else some (mant * (10 : ℚ) ^ (sgn * (digitsToNat ds : ℤ)))
    | 'E' :: rest =>
      let sgn : ℤ := if rest.headD ' ' = '-' then -1 else 1
      let rest' := if rest.headD ' ' = '-' ∨ rest.headD ' ' = '+' then rest.tail else rest
      let ds := rest'.takeWhile isDigitCh
      if ds = [] ∨ rest'.dropWhile isDigitCh ≠ [] then none
      else some (mant * (10 : ℚ) ^ (sgn * (digitsToNat ds : ℤ)))
    | _ => none

/-- Python `float(s)` including the optional sign. -/
def pyFloatStr (s : String) : Option ℚ :=
  match pyStrip s.data with
  | '+' :: r => pyFloatCore r
  | '-' :: r => (pyFloatCore r).map (fun q => -q)
  | cs => pyFloatCore cs

/-- `safe_float`: convert a cell to a number, returning `default` for `None`
or on a `ValueError`/`TypeError` from the conversion. -/
def safe_float (c : Cell) (default : ℚ) : ℚ :=
  match c with
  | .none => default
  | .num q => q
  | .str s => (pyFloatStr s).getD default

/-- Column layout of one sheet (`cols` of a `SHEETS` entry). -/
structure SheetCols where
  code : Nat
  name : Nat
  family : Nat
  factor : Option Nat
  base_unit : Nat
  order_unit : Nat
  merma : Option Nat
  deriving DecidableEq

/-- One entry of the static `SHEETS` configuration table. -/
structure SheetCfg where
  name : String
  header_row : Nat
  cols : SheetCols
  deriving DecidableEq

def cocinaVitacuraCfg : SheetCfg := ⟨"Cocina VITACURA", 2, ⟨0, 1, 2, some 3, 6, 10, some 11⟩⟩
def procesadoCfg : SheetCfg := ⟨"Procesado", 2, ⟨0, 1, 2, some 5, 4, 6, some 7⟩⟩
def personalCfg : SheetCfg := ⟨"Personal", 2, ⟨0, 1, 2, Option.none, 5, 5, Option.none⟩⟩
def frutasVerdurasCfg : SheetCfg := ⟨"Futas y Verduras", 2, ⟨0, 1, 2, some 3, 6, 10, some 11⟩⟩
def aseoCfg : SheetCfg := ⟨"Aseo", 2, ⟨0, 1, 2, Option.none, 5, 5, Option.none⟩⟩
def otrosMaterialesCfg : SheetCfg := ⟨"Otros Materiales", 2, ⟨0, 1, 2, Option.none, 5, 5, Option.none⟩⟩
def cuchilleriaCfg : SheetCfg := ⟨"Cuchillería y Cristalería", 2, ⟨0, 1, 2, Option.none, 5, 5, Option.none⟩⟩
def articulosOficinaCfg : SheetCfg := ⟨"Articulos de Oficina", 2, ⟨0, 1, 2, Option.none, 5, 5, Option.none⟩⟩

/-- The static sheet extraction configuration table. -/
def SHEETS : List SheetCfg :=
  [cocinaVitacuraCfg, procesadoCfg, personalCfg, frutasVerdurasCfg,
   aseoCfg, otrosMaterialesCfg, cuchilleriaCfg, articulosOficinaCfg]

/-- One output product record. -/
structure Product where
  code : String
  name : String
  family : String
  sheet : String
  unitOfMeasure : CanonicalUnit
  unitOfOrder : CanonicalUnit
  conversionFactor : ℚ
  deriving DecidableEq

/-- The mutable aggregation state of `main`: product list, family set,
auto-code counter (the dict `code_counter` has at most the single key
`"NC"`, modelled as an optional counter), and the set of assigned codes. -/
structure ExtractState where
  all_products : List Product
  all_families : List String
  code_counter : Option Nat
  seen_codes : List String
  deriving DecidableEq

def initState : ExtractState := ⟨[], [], Option.none, []⟩

/-- A data row of a sheet. -/
abbrev Row := List Cell

/-- The workbook: rows (after the header row) for each sheet name present. -/
abbrev Workbook := String → Option (List Row)

/-- `row[j]` guarded by `len(row) > j`, with `None` for a missing cell. -/
def cellAt (row : Row) (j : Nat) : Cell := row.getD j Cell.none

def rowName (cfg : SheetCfg) (row : Row) : String := safe_str (cellAt row cfg.cols.name)

def rowCode (cfg : SheetCfg) (row : Row) : String := safe_str (cellAt row cfg.cols.code)

def rowFamily (cfg : SheetCfg) (row : Row) : String := safe_str (cellAt row cfg.cols.family)

/-- The `factor` local of the row loop: defaults to `1.0`; when the schema
declares a factor column in range, the coerced cell value, with an exact `0`
reset to `1.0`. -/
def rowFactor (cfg : SheetCfg) (row : Row) : ℚ :=
  match cfg.cols.factor with
  | Option.none => 1
  | some j =>
    if row.length > j then
      (if safe_float (cellAt row j) 1 = 0 then 1 else safe_float (cellAt row j) 1)
    else 1

/-- The `base_unit_raw` local: empty when the column is out of range. -/
def baseUnitRaw (cfg : SheetCfg) (row : Row) : String :=
  if row.length > cfg.cols.base_unit then safe_str (cellAt row cfg.cols.base_unit) else ""

/-- The `order_unit_raw` local: empty when the column is out of range. -/
def orderUnitRaw (cfg : SheetCfg) (row : Row) : String :=
  if row.length > cfg.cols.order_unit then safe_str (cellAt row cfg.cols.order_unit) else ""

/-- `f"NC-{c:04d}"`. -/
def ncCode (c : Nat) : String :=
  "NC-" ++ String.mk (List.replicate (4 - (natDecimal c).length) '0' ++ natDecimal c)

/-- `f"{orig}-{i}"`, the collision-resolution candidate. -/
def candCode (orig : String) (i : Nat) : String :=
  String.mk (orig.data ++ '-' :: natDecimal i)

/-- The `while code in seen_codes` loop, fuelled; the fuel
`seen.length + 1` always suffices (see `uniquify_not_mem`). -/
def uniquifyAux (seen : List String) (orig : String) : Nat → Nat → String
  | 0, sfx => candCode orig sfx
  | fuel + 1, sfx =>
    if candCode orig sfx ∈ seen then uniquifyAux seen orig fuel (sfx + 1)
    else candCode orig sfx

/-- Disambiguate `orig` against the seen-codes set by appending `-1`, `-2`, …
until the code is fresh. -/
def uniquify (seen : List String) (orig : String) : String :=
  if orig ∈ seen then uniquifyAux seen orig (seen.length + 1) 1 else orig

/-- The product constructed for one qualifying row (given the already parsed
order unit and order factor). -/
def mkProduct (cfg : SheetCfg) (st : ExtractState) (row : Row)
    (ou : CanonicalUnit) (ofac : ℚ) : Product :=
  let code0 := rowCode cfg row
  let code1 := if code0 = "" then ncCode ((st.code_counter).getD 1) else code0
  let fam := if rowFamily cfg row = "" then "SIN CLASIFICAR" else rowFamily cfg row
  { code := uniquify st.seen_codes code1,
    name := rowName cfg row,
    family := fam,
    sheet := cfg.name,
    unitOfMeasure := parse_base_unit (baseUnitRaw cfg row),
    unitOfOrder := ou,
    conversionFactor := round4 (if rowFactor cfg row ≠ 1 then rowFactor cfg row else ofac) }

/-- The state after emitting the product of one qualifying row. -/
def emitRow (cfg : SheetCfg) (st : ExtractState) (row : Row)
    (ou : CanonicalUnit) (ofac : ℚ) : ExtractState :=
  let p := mkProduct cfg st row ou ofac
  { all_products := st.all_products ++ [p],
    all_families := if p.family ∈ st.all_families then st.all_families
                    else st.all_families ++ [p.family],
    code_counter := if rowCode cfg row = "" then some ((st.code_counter).getD 1 + 1)
                    else st.code_counter,
    seen_codes := p.code :: st.seen_codes }

/-- Process one data row: skip if the name is empty, otherwise parse the
order unit (which may raise) and emit the product. -/
def processRow (cfg : SheetCfg) (st : ExtractState) (row : Row) : Except PyErr ExtractState :=
  if rowName cfg row = "" then .ok st
  else
    match parse_unit (orderUnitRaw cfg row) with
    | .error e => .error e
    | .ok (ou, ofac) => .ok (emitRow cfg st row ou ofac)

/-- Process all data rows of one sheet. -/
def processSheet (cfg : SheetCfg) (st : ExtractState) (rows : List Row) :
    Except PyErr ExtractState :=
  rows.foldlM (fun s r => processRow cfg s r) st

/-- Look up a sheet in the workbook (`wb[sheet_name]`, raising `KeyError`
when absent) and process its rows. -/
def stepSheet (wb : Workbook) (st : ExtractState) (cfg : SheetCfg) :
    Except PyErr ExtractState :=
  match wb cfg.name with
  | Option.none => .error .keyError
  | some rows => processSheet cfg st rows

/-- The final output document. -/
structure Output where
  families : List String
  products : List Product
  totalProducts : Nat
  totalFamilies : Nat
  bySheet : List (String × Nat)
  deriving DecidableEq

/-- Build the output document from the final state: sorted family list,
products in encounter order, and the statistics block. -/
def buildOutput (st : ExtractState) : Output :=
  let families_sorted := st.all_families.insertionSort (· ≤ ·)
  { families := families_sorted,
    products := st.all_products,
    totalProducts := st.all_products.length,
    totalFamilies := families_sorted.length,
    bySheet := SHEETS.map (fun c =>
      (c.name, (st.all_products.filter (fun p => p.sheet == c.name)).length)) }

/-- The whole extraction run of `main` (up to the serialization). -/
def runExtract (wb : Workbook) : Except PyErr Output :=
  (SHEETS.foldlM (stepSheet wb) initState).map buildOutput

/-! ### Claim C1 -/

/-- Claim C1 (code bug evidence): `parse_unit` does NOT always return a
`(unit, factor)` pair.  On the input `"BIDON ."` the `BIDON` rule matches
with numeric group `"."`, and `float(".")` raises an uncaught `ValueError`,
so the call raises instead of falling through to the `(UN, 1)` default. -/
theorem parse_unit_raises_on_unparsable_group :
    parse_unit "BIDON ." = .error .valueError := by with_unfolding_all rfl

/-! ### Claim C6 -/

/-- Claim C6: the six documented input/output pairs of `normalizeOrderUnit`
(`parse_unit`) hold as stated. -/
theorem parse_unit_examples :
    parse_unit "BIDON 5 LT" = .ok (.BIDONES, 5) ∧
    parse_unit "BIDON 10" = .ok (.BIDONES, 10) ∧
    parse_unit "PAQUETE x6 u" = .ok (.PAQUETES, 6) ∧
    parse_unit "POTE 0,789 KG" = .ok (.POTES, 789 / 1000) ∧
    parse_unit "" = .ok (.UN, 1) ∧
    parse_unit "GARBAGE" = .ok (.UN, 1) := by
  refine ⟨?_, ?_, ?_, ?_, ?_, ?_⟩ <;> with_unfolding_all rfl

/-! ### Claim C7 -/

/-- Claim C7: a raw string whose stripped, uppercased form is a key of the
literal `direct` table maps to that key's unit with factor exactly 1; the
table lookup takes precedence over the pattern rules. -/
theorem parse_unit_direct_hit (raw : String) (u : CanonicalUnit)
    (h : directLookup (pyUpper (pyStrip raw.data)) = some u) :
    parse_unit raw = .ok (u, 1) := by
  unfold parse_unit
  split
  · next hraw =>
    subst hraw
    have hnone : directLookup (pyUpper (pyStrip ("" : String).data)) = Option.none := by decide
    rw [hnone] at h
    cases h
  · rw [h]

/-- Claim C7 witness: the bare keyword `"BIDON"` is a table key and maps to
`(BIDONES, 1)`, not to the default. -/
theorem parse_unit_direct_hit_witness :
    parse_unit "BIDON" = .ok (.BIDONES, 1) :=
  parse_unit_direct_hit "BIDON" CanonicalUnit.BIDONES (by decide)

/-! ### Claim C9 -/

/-- Claim C9: a row whose name field coerces to the empty string is skipped
with the extraction state (product list, family set, code counter and
seen-codes set) returned unchanged, so the row is counted nowhere. -/
theorem empty_name_skips_row (cfg : SheetCfg) (st : ExtractState) (row : Row)
    (h : rowName cfg row = "") :
    processRow cfg st row = .ok st := by
  unfold processRow
  rw [if_pos h]

/-- Claim C9 witness: an all-empty row of the first sheet is skipped without
touching the initial state. -/
theorem empty_name_skips_row_witness :
    processRow cocinaVitacuraCfg initState [] = .ok initState :=
  empty_name_skips_row cocinaVitacuraCfg initState [] (by decide)

/-! ### Claim C4 (counterexample and amended statement) -/

/-- Claim C4 counterexample: the claim as stated fails.  Whitespace between
the keyword and the number is NOT optional for the `BIDON` rule
(`"BIDON5"` falls through to the default `(UN, 1)` instead of giving
`(BIDONES, 5)`), and the `KG` suffix is NOT optional for the `POTE` rule
(`"POTE 5"` falls through to `(UN, 1)` instead of giving `(POTES, 5)`). -/
theorem pattern_rules_cex :
    parse_unit "BIDON5" = .ok (.UN, 1) ∧
    parse_unit "BIDON5" ≠ .ok (.BIDONES, 5) ∧
    parse_unit "POTE 5" = .ok (.UN, 1) ∧
    parse_unit "POTE 5" ≠ .ok (.POTES, 5) := by
  have h1 : parse_unit "BIDON5" = .ok (.UN, 1) := by with_unfolding_all rfl
  have h2 : parse_unit "POTE 5" = .ok (.UN, 1) := by with_unfolding_all rfl
  refine ⟨h1, ?_, h2, ?_⟩
  · rw [h1]
    intro h
    exact absurd (congrArg (fun e => match e with | .ok p => p.1 | .error _ => CanonicalUnit.UN) h)
      (by decide)
  · rw [h2]
    intro h
    exact absurd (congrArg (fun e => match e with | .ok p => p.1 | .error _ => CanonicalUnit.UN) h)
      (by decide)

/-! ### Claim C3 -/

/-- Claim C3: for every emitted row, the product's `conversionFactor` is the
4-digit rounding, applied exactly once at assignment, of: the coerced
factor-column value when the schema declares a factor column that is in
range for the row and the coerced value is neither the invalid `0` (which is
reset to `1`) nor the `1.0` default sentinel; and of the factor embedded in
the order-unit text otherwise. -/
theorem conversionFactor_choice (cfg : SheetCfg) (st : ExtractState) (row : Row)
    (ou : CanonicalUnit) (ofac : ℚ) (st' : ExtractState)
    (hname : rowName cfg row ≠ "")
    (hpu : parse_unit (orderUnitRaw cfg row) = .ok (ou, ofac))
    (hrun : processRow cfg st row = .ok st') :
    st'.all_products = st.all_products ++ [mkProduct cfg st row ou ofac] ∧
    (∀ j, cfg.cols.factor = some j → row.length > j →
      safe_float (cellAt row j) 1 ≠ 0 → safe_float (cellAt row j) 1 ≠ 1 →
      (mkProduct cfg st row ou ofac).conversionFactor =
        round4 (safe_float (cellAt row j) 1)) ∧
    (∀ j, cfg.cols.factor = some j → row.length > j →
      (safe_float (cellAt row j) 1 = 0 ∨ safe_float (cellAt row j) 1 = 1) →
      (mkProduct cfg st row ou ofac).conversionFactor = round4 ofac) ∧
    ((cfg.cols.factor = Option.none ∨ (∃ j, cfg.cols.factor = some j ∧ ¬ row.length > j)) →
      (mkProduct cfg st row ou ofac).conversionFactor = round4 ofac) := by
  unfold processRow at hrun
  rw [if_neg hname, hpu] at hrun
  cases hrun
  refine ⟨by simp [emitRow], ?_, ?_, ?_⟩
  · intro j hj hlen hf0 hf1
    have hfac : rowFactor cfg row = safe_float (cellAt row j) 1 := by
      simp only [rowFactor, hj]
      rw [if_pos hlen, if_neg hf0]
    simp only [mkProduct]
    rw [hfac, if_pos hf1]
  · intro j hj hlen hf
    have hfac : rowFactor cfg row = 1 := by
      simp only [rowFactor, hj]
      rw [if_pos hlen]
      rcases hf with hf | hf
      · rw [if_pos hf]
      · split <;> [rfl; exact hf]
    simp only [mkProduct]
    rw [hfac, if_neg (fun h => h rfl)]
  · intro hcase
    have hfac : rowFactor cfg row = 1 := by
      rcases hcase with hnone | ⟨j, hj, hlen⟩
      · simp only [rowFactor, hnone]
      · simp only [rowFactor, hj]
        rw [if_neg hlen]
    simp only [mkProduct]
    rw [hfac, if_neg (fun h => h rfl)]

def c3Row : Row := [Cell.str "C", Cell.str "N", Cell.none, Cell.num (5 / 2)]

/-- Claim C3 witness: on a concrete row of the first sheet with factor cell
`5/2`, the emitted conversion factor is the rounding of the factor column. -/
theorem conversionFactor_choice_witness :
    (mkProduct cocinaVitacuraCfg initState c3Row CanonicalUnit.UN 1).conversionFactor =
      round4 (safe_float (cellAt c3Row 3) 1) := by
  have e : safe_float (cellAt c3Row 3) 1 = 5 / 2 := by with_unfolding_all rfl
  have h := conversionFactor_choice cocinaVitacuraCfg initState c3Row CanonicalUnit.UN 1
    (emitRow cocinaVitacuraCfg initState c3Row CanonicalUnit.UN 1)
    (by decide) (by with_unfolding_all rfl) (by with_unfolding_all rfl)
  exact h.2.1 3 rfl (by decide) (by rw [e]; norm_num) (by rw [e]; norm_num)

/-! ### Generic facts about the row / sheet / run folds -/

/-- Successful row processing either skips the row or emits its product. -/
theorem processRow_shape {cfg : SheetCfg} {s : ExtractState} {r : Row} {s' : ExtractState}
    (h : processRow cfg s r = .ok s') :
    (rowName cfg r = "" ∧ s' = s) ∨
    (rowName cfg r ≠ "" ∧ ∃ ou ofac, parse_unit (orderUnitRaw cfg r) = .ok (ou, ofac) ∧
      s' = emitRow cfg s r ou ofac) := by
  unfold processRow at h
  split at h
  · next hn => cases h; exact Or.inl ⟨hn, rfl⟩
  · next hn =>
    cases hpu : parse_unit (orderUnitRaw cfg r) with
    | error e => rw [hpu] at h; cases h
    | ok pr =>
      cases pr with
      | mk ou ofac =>
        rw [hpu] at h
        cases h
        exact Or.inr ⟨hn, ou, ofac, rfl, rfl⟩

theorem exceptBindOk {ε α β : Type} (a : α) (f : α → Except ε β) :
    (Except.ok a >>= f) = f a := rfl

theorem exceptBindErr {ε α β : Type} (e : ε) (f : α → Except ε β) :
    ((Except.error e : Except ε α) >>= f) = Except.error e := rfl

/-- An invariant preserved by every successful row step is preserved by a
successful sheet fold. -/
theorem processSheet_inv {P : ExtractState → Prop} {cfg : SheetCfg} :
    ∀ {rows : List Row} {st st' : ExtractState},
    (∀ r ∈ rows, ∀ s s', processRow cfg s r = .ok s' → P s → P s') →
    processSheet cfg st rows = .ok st' → P st → P st'
  | [], st, st', _, h, hP => by
    unfold processSheet at h
    simp only [List.foldlM_nil] at h
    cases h
    exact hP
  | r :: rs, st, st', hrow, h, hP => by
    unfold processSheet at h
    simp only [List.foldlM_cons] at h
    cases hres : processRow cfg st r with
    | error e =>
      rw [hres] at h
      simp only [exceptBindErr] at h
      cases h
    | ok s1 =>
      rw [hres] at h
      simp only [exceptBindOk] at h
      exact processSheet_inv (fun x hx => hrow x (List.mem_cons_of_mem r hx)) h
        (hrow r (List.mem_cons_self r rs) st s1 hres hP)

/-- An invariant preserved by every successful row step (for sheets of the
given configuration list) is preserved by the whole run fold. -/
theorem runFold_inv {P : ExtractState → Prop} {wb : Workbook} :
    ∀ {cfgs : List SheetCfg} {st st' : ExtractState},
    (∀ cfg ∈ cfgs, ∀ r ∈ (wb cfg.name).getD [], ∀ s s',
      processRow cfg s r = .ok s' → P s → P s') →
    cfgs.foldlM (stepSheet wb) st = .ok st' → P st → P st'
  | [], st, st', _, h, hP => by
    simp only [List.foldlM_nil] at h
    cases h
    exact hP
  | cfg :: cfgs, st, st', hrow, h, hP => by
    simp only [List.foldlM_cons] at h
    cases hstep : stepSheet wb st cfg with
    | error e =>
      rw [hstep] at h
      simp only [exceptBindErr] at h
      cases h
    | ok s1 =>
      rw [hstep] at h
      simp only [exceptBindOk] at h
      refine runFold_inv (fun c hc => hrow c (List.mem_cons_of_mem cfg hc)) h ?_
      unfold stepSheet at hstep
      cases hwb : wb cfg.name with
      | none => rw [hwb] at hstep; cases hstep
      | some rows =>
        rw [hwb] at hstep
        refine processSheet_inv (fun r hr => ?_) hstep hP
        exact hrow cfg (List.mem_cons_self cfg cfgs) r (by rw [hwb]; exact hr)

/-- A successful run is the report built from a successful fold. -/
theorem runExtract_ok {wb : Workbook} {out : Output} (h : runExtract wb = .ok out) :
    ∃ stf, SHEETS.foldlM (stepSheet wb) initState = .ok stf ∧ out = buildOutput stf := by
  unfold runExtract at h
  cases hf : SHEETS.foldlM (stepSheet wb) initState with
  | error e => rw [hf] at h; cases h
  | ok stf =>
    rw [hf] at h
    cases h
    exact ⟨stf, rfl, rfl⟩

/-! ### Claim C10 -/

/-- The six values `parse_base_unit` can produce. -/
def measUnits : List CanonicalUnit := [.KG, .LT, .ML, .GR, .UN, .PORCIONES]

/-- `parse_base_unit` only ever returns one of the six measurement units. -/
theorem parse_base_unit_mem (raw : String) : parse_base_unit raw ∈ measUnits := by
  unfold parse_base_unit
  split
  · decide
  · cases hm : baseTable.find? (fun e => e.1 == pyLower (pyStrip raw.data)) with
    | none => decide
    | some e =>
      show e.2 ∈ measUnits
      have he : e ∈ baseTable := List.mem_of_find?_eq_some hm
      fin_cases he <;> decide

/-- Products only ever carry a measurement unit in `unitOfMeasure`. -/
theorem state_unitOfMeasure_mem {wb : Workbook} {stf : ExtractState}
    (h : SHEETS.foldlM (stepSheet wb) initState = .ok stf) :
    ∀ p ∈ stf.all_products, p.unitOfMeasure ∈ measUnits := by
  refine runFold_inv (P := fun st => ∀ p ∈ st.all_products, p.unitOfMeasure ∈ measUnits)
    ?_ h (by intro p hp; cases hp)
  intro cfg _ r _ s s' hstep hP
  rcases processRow_shape hstep with ⟨_, rfl⟩ | ⟨_, ou, ofac, _, rfl⟩
  · exact hP
  · intro p hp
    simp only [emitRow, List.mem_append, List.mem_singleton] at hp
    rcases hp with hp | rfl
    · exact hP p hp
    · exact parse_base_unit_mem _

/-- Claim C10: `parse_base_unit` always yields one of the six values KG, LT,
ML, GR, UN, PORCIONES; hence every emitted product's `unitOfMeasure` lies in
that six-value subset; whereas `parse_unit` can produce every one of the
nineteen enumeration values as order unit. -/
theorem unitOfMeasure_range :
    (∀ raw, parse_base_unit raw ∈ measUnits) ∧
    (∀ wb out, runExtract wb = .ok out → ∀ p ∈ out.products, p.unitOfMeasure ∈ measUnits) ∧
    (∀ u : CanonicalUnit, ∃ raw q, parse_unit raw = .ok (u, q)) := by
  refine ⟨parse_base_unit_mem, ?_, ?_⟩
  · intro wb out h
    obtain ⟨stf, hf, rfl⟩ := runExtract_ok h
    have := state_unitOfMeasure_mem hf
    simpa [buildOutput] using this
  · intro u
    cases u with
    | KG => exact ⟨"KG", 1, by with_unfolding_all rfl⟩
    | LT => exact ⟨"L", 1, by with_unfolding_all rfl⟩
    | ML => exact ⟨"ML", 1, by with_unfolding_all rfl⟩
    | GR => exact ⟨"G", 1, by with_unfolding_all rfl⟩
    | UN => exact ⟨"", 1, by with_unfolding_all rfl⟩
    | PORCIONES => exact ⟨"PORCIONES", 1, by with_unfolding_all rfl⟩
    | BANDEJAS => exact ⟨"BANDEJA", 1, by with_unfolding_all rfl⟩
    | CAJAS => exact ⟨"CAJA", 1, by with_unfolding_all rfl⟩
    | BIDONES => exact ⟨"BIDON", 1, by with_unfolding_all rfl⟩
    | FRASCOS => exact ⟨"FRASCO", 1, by with_unfolding_all rfl⟩
    | PAQUETES => exact ⟨"PAQUETE", 1, by with_unfolding_all rfl⟩
    | POTES => exact ⟨"POTE", 1, by with_unfolding_all rfl⟩
    | ROLLOS => exact ⟨"ROLLO", 1, by with_unfolding_all rfl⟩
    | SOBRES => exact ⟨"SOBRE", 1, by with_unfolding_all rfl⟩
    | MALLAS => exact ⟨"MALLA", 1, by with_unfolding_all rfl⟩
    | BOLSAS => exact ⟨"BOLSA 1 KG", 1, by with_unfolding_all rfl⟩
    | BOTELLAS => exact ⟨"BOTELLA 1", 1, by with_unfolding_all rfl⟩
    | TARROS => exact ⟨"TARRO 1 KG", 1, by with_unfolding_all rfl⟩
    | SACOS => exact ⟨"SACO 1 KG", 1, by with_unfolding_all rfl⟩

def c10Wb : Workbook := fun n =>
  if n = "Cocina VITACURA" then
    some [[Cell.str "A", Cell.str "N", Cell.none, Cell.none, Cell.none, Cell.none, Cell.str "kg"]]
  else some []

def c10Out : Output := (runExtract c10Wb).toOption.getD ⟨[], [], 0, 0, []⟩

def c10P : Product := c10Out.products.headD ⟨"", "", "", "", .UN, .UN, 0⟩

/-- Claim C10 witness: on a concrete run whose single row has base unit
`"kg"`, the emitted product's `unitOfMeasure` is one of the six measurement
units. -/
theorem unitOfMeasure_range_witness : c10P.unitOfMeasure ∈ measUnits :=
  unitOfMeasure_range.2.1 c10Wb c10Out (by with_unfolding_all rfl) c10P
    (by with_unfolding_all decide)

/-! ### Claim C2 -/

theorem digitChar_toNat {d : Nat} (h : d < 10) : (digitChar d).toNat = 48 + d := by
  interval_cases d <;> decide

theorem digitsToNat_concat (l : List Char) (c : Char) :
    digitsToNat (l ++ [c]) = digitsToNat l * 10 + (c.toNat - 48) := by
  unfold digitsToNat
  rw [List.foldl_append]
  rfl

theorem natDecAux_val : ∀ fuel n, n < 10 ^ fuel → digitsToNat (natDecAux fuel n) = n
  | 0, n, h => by
    unfold natDecAux
    simp only [pow_zero, Nat.lt_one_iff] at h
    subst h
    rfl
  | fuel + 1, n, h => by
    unfold natDecAux
    split
    · next h0 => subst h0; rfl
    · next h0 =>
      rw [digitsToNat_concat, natDecAux_val fuel (n / 10) (by
        rw [Nat.div_lt_iff_lt_mul (by norm_num)]
        calc n < 10 ^ (fuel + 1) := h
        _ = 10 ^ fuel * 10 := by ring),
        digitChar_toNat (Nat.mod_lt n (by norm_num))]
      omega

theorem natDecimal_val (n : Nat) : digitsToNat (natDecimal n) = n := by
  unfold natDecimal
  split
  · next h => subst h; rfl
  · exact natDecAux_val n n (Nat.lt_pow_self (by norm_num) n)

theorem natDecimal_injective : Function.Injective natDecimal := by
  intro a b h
  have ha := natDecimal_val a
  rw [h, natDecimal_val b] at ha
  exact ha.symm

theorem candCode_injective (orig : String) : Function.Injective (candCode orig) := by
  intro i j h
  unfold candCode at h
  have hl : orig.data ++ '-' :: natDecimal i = orig.data ++ '-' :: natDecimal j := by
    injection h
  have := List.append_cancel_left hl
  exact natDecimal_injective (by injection this)

/-- Among the first `seen.length + 1` suffix candidates at least one is
fresh (pigeonhole). -/
theorem exists_fresh_cand (seen : List String) (orig : String) :
    ∃ i, i < seen.length + 1 ∧ candCode orig (1 + i) ∉ seen := by
  by_contra hc
  push_neg at hc
  have hsub : ∀ i : Fin (seen.length + 1), candCode orig (1 + i.1) ∈ seen.toFinset :=
    fun i => List.mem_toFinset.mpr (hc i.1 i.2)
  have hinj : Set.InjOn (fun i : Fin (seen.length + 1) => candCode orig (1 + i.1))
      (Finset.univ : Finset (Fin (seen.length + 1))) := by
    intro i _ j _ h
    have := candCode_injective orig h
    exact Fin.ext (by omega)
  have hcard := Finset.card_le_card_of_injOn
    (f := fun i : Fin (seen.length + 1) => candCode orig (1 + i.1))
    (fun i _ => hsub i) hinj
  have h1 : (Finset.univ : Finset (Fin (seen.length + 1))).card = seen.length + 1 := by
    simp
  have h2 : seen.toFinset.card ≤ seen.length := seen.toFinset_card_le
  omega

theorem uniquifyAux_not_mem (seen : List String) (orig : String) :
    ∀ fuel sfx, (∃ i, i < fuel ∧ candCode orig (sfx + i) ∉ seen) →
      uniquifyAux seen orig fuel sfx ∉ seen
  | 0, _, h => by
    obtain ⟨i, hi, _⟩ := h
    exact absurd hi (Nat.not_lt_zero i)
  | fuel + 1, sfx, h => by
    unfold uniquifyAux
    split
    · next hmem =>
      apply uniquifyAux_not_mem seen orig fuel (sfx + 1)
      obtain ⟨i, hi, hni⟩ := h
      cases i with
      | zero => exact absurd hmem (by simpa using hni)
      | succ j =>
        exact ⟨j, by omega, by rwa [show sfx + 1 + j = sfx + (j + 1) by omega]⟩
    · next hmem => exact hmem

/-- The collision-resolution loop always terminates with a code that is not
yet in the seen set. -/
theorem uniquify_not_mem (seen : List String) (orig : String) :
    uniquify seen orig ∉ seen := by
  unfold uniquify
  split
  · obtain ⟨i, hi, hni⟩ := exists_fresh_cand seen orig
    exact uniquifyAux_not_mem seen orig (seen.length + 1) 1 ⟨i, hi, hni⟩
  · next h => exact h

/-- Code-uniqueness invariant: emitted codes are pairwise distinct and all
recorded in the seen-codes set. -/
def CodesInv (st : ExtractState) : Prop :=
  (st.all_products.map (fun p => p.code)).Nodup ∧
  ∀ p ∈ st.all_products, p.code ∈ st.seen_codes

theorem processRow_codesInv {cfg : SheetCfg} {s : ExtractState} {r : Row} {s' : ExtractState}
    (h : processRow cfg s r = .ok s') (hI : CodesInv s) : CodesInv s' := by
  rcases processRow_shape h with ⟨_, rfl⟩ | ⟨_, ou, ofac, _, rfl⟩
  · exact hI
  · obtain ⟨hnd, hmem⟩ := hI
    have hfresh : (mkProduct cfg s r ou ofac).code ∉ s.seen_codes :=
      uniquify_not_mem _ _
    constructor
    · simp only [emitRow, List.map_append, List.map_cons, List.map_nil]
      rw [List.nodup_append]
      refine ⟨hnd, List.nodup_singleton _, ?_⟩
      intro a ha hb
      rw [List.mem_singleton] at hb
      subst hb
      obtain ⟨p, hp, hpc⟩ := List.mem_map.mp ha
      exact hfresh (hpc ▸ hmem p hp)
    · intro p hp
      simp only [emitRow, List.mem_append, List.mem_singleton] at hp
      rcases hp with hp | rfl
      · exact List.mem_cons_of_mem _ (hmem p hp)
      · exact List.mem_cons_self _ _

/-- Claim C2: over any run, the `code` values of the final product list are
pairwise distinct — colliding candidates (user-supplied or `NC-` generated)
are replaced by the first fresh `-1`, `-2`, … suffixed candidate, which is
then recorded in the seen-codes set. -/
theorem extract_codes_nodup (wb : Workbook) (out : Output)
    (h : runExtract wb = .ok out) :
    (out.products.map (fun p => p.code)).Nodup := by
  obtain ⟨stf, hf, rfl⟩ := runExtract_ok h
  have hI : CodesInv stf := by
    refine runFold_inv (P := CodesInv)
      (fun cfg _ r _ s s' hs hP => processRow_codesInv hs hP) hf ?_
    exact ⟨List.nodup_nil, fun p hp => absurd hp (List.not_mem_nil p)⟩
  simpa [buildOutput] using hI.1

def c2Wb : Workbook := fun n =>
  if n = "Cocina VITACURA" then
    some [[Cell.str "A", Cell.str "P1"], [Cell.str "A", Cell.str "P2"],
          [Cell.none, Cell.str "P3"]]
  else some []

def c2Out : Output := (runExtract c2Wb).toOption.getD ⟨[], [], 0, 0, []⟩

/-- Claim C2 witness: a concrete run with a duplicated user code and a blank
code yields the codes `A`, `A-1`, `NC-0001`, pairwise distinct. -/
theorem extract_codes_nodup_witness :
    c2Out.products.map (fun p => p.code) = ["A", "A-1", "NC-0001"] ∧
    (c2Out.products.map (fun p => p.code)).Nodup :=
  ⟨by with_unfolding_all rfl,
   extract_codes_nodup c2Wb c2Out (by with_unfolding_all rfl)⟩

/-! ### Claim C8 -/

/-- Family invariant: the family set is duplicate-free and is exactly the set
of family values of the emitted products. -/
def FamInv (st : ExtractState) : Prop :=
  st.all_families.Nodup ∧
  ∀ f, f ∈ st.all_families ↔ ∃ p ∈ st.all_products, p.family = f

theorem processRow_famInv {cfg : SheetCfg} {s : ExtractState} {r : Row} {s' : ExtractState}
    (h : processRow cfg s r = .ok s') (hI : FamInv s) : FamInv s' := by
  rcases processRow_shape h with ⟨_, rfl⟩ | ⟨_, ou, ofac, _, rfl⟩
  · exact hI
  · obtain ⟨hnd, hiff⟩ := hI
    have hfam : ∀ f, f ∈ (emitRow cfg s r ou ofac).all_families ↔
        f ∈ s.all_families ∨ f = (mkProduct cfg s r ou ofac).family := by
      intro f
      simp only [emitRow]
      split
      · next hin =>
        constructor
        · exact Or.inl
        · rintro (hf | rfl)
          · exact hf
          · exact hin
      · simp [List.mem_append]
    constructor
    · simp only [emitRow]
      split
      · exact hnd
      · next hin =>
        rw [List.nodup_append]
        refine ⟨hnd, List.nodup_singleton _, ?_⟩
        intro a ha hb
        rw [List.mem_singleton] at hb
        subst hb
        exact hin ha
    · intro f
      rw [hfam f]
      have hprod : (emitRow cfg s r ou ofac).all_products =
          s.all_products ++ [mkProduct cfg s r ou ofac] := by
        simp [emitRow]
      rw [hprod]
      constructor
      · rintro (hf | rfl)
        · obtain ⟨p, hp, hpf⟩ := (hiff f).mp hf
          exact ⟨p, List.mem_append_left _ hp, hpf⟩
        · exact ⟨_, List.mem_append_right _ (List.mem_singleton_self _), rfl⟩
      · rintro ⟨p, hp, hpf⟩
        rcases List.mem_append.mp hp with hp | hp
        · exact Or.inl ((hiff f).mpr ⟨p, hp, hpf⟩)
        · rw [List.mem_singleton] at hp
          subst hp
          exact Or.inr hpf.symm

/-- Sheet-name invariant: every emitted product carries a declared sheet name. -/
def SheetNameInv (st : ExtractState) : Prop :=
  ∀ p ∈ st.all_products, p.sheet ∈ SHEETS.map (fun c => c.name)

theorem processRow_sheetNameInv {cfg : SheetCfg} {s : ExtractState} {r : Row}
    {s' : ExtractState} (hcfg : cfg.name ∈ SHEETS.map (fun c => c.name))
    (h : processRow cfg s r = .ok s') (hI : SheetNameInv s) : SheetNameInv s' := by
  rcases processRow_shape h with ⟨_, rfl⟩ | ⟨_, ou, ofac, _, rfl⟩
  · exact hI
  · intro p hp
    simp only [emitRow, List.mem_append, List.mem_singleton] at hp
    rcases hp with hp | rfl
    · exact hI p hp
    · exact hcfg

theorem length_filter_add_length_filter_not (l : List Product) (q : Product → Bool) :
    (l.filter q).length + (l.filter (fun p => !(q p))).length = l.length := by
  induction l with
  | nil => rfl
  | cons p t ih =>
    by_cases hq : q p = true
    · have h1 : (p :: t).filter q = p :: t.filter q := by simp [List.filter_cons, hq]
      have h2 : (p :: t).filter (fun x => !(q x)) = t.filter (fun x => !(q x)) := by
        simp [List.filter_cons, hq]
      rw [h1, h2, List.length_cons, List.length_cons]
      omega
    · have hq' : q p = false := by simpa using hq
      have h1 : (p :: t).filter q = t.filter q := by simp [List.filter_cons, hq']
      have h2 : (p :: t).filter (fun x => !(q x)) = p :: t.filter (fun x => !(q x)) := by
        simp [List.filter_cons, hq']
      rw [h1, h2, List.length_cons, List.length_cons]
      omega

/-- Counting products sheet by sheet over a duplicate-free name list that
covers every product recovers the total count. -/
theorem sum_filter_sheets : ∀ (names : List String) (l : List Product),
    names.Nodup → (∀ p ∈ l, p.sheet ∈ names) →
    (names.map (fun n => (l.filter (fun p => p.sheet == n)).length)).sum = l.length
  | [], l, _, hall => by
    have hl : l = [] := by
      cases l with
      | nil => rfl
      | cons p t => exact absurd (hall p (List.mem_cons_self p t)) (List.not_mem_nil _)
    subst hl
    rfl
  | n :: ns, l, hnd, hall => by
    have hnmem : n ∉ ns := (List.nodup_cons.mp hnd).1
    have hndns : ns.Nodup := (List.nodup_cons.mp hnd).2
    have hfilters : ∀ m ∈ ns, l.filter (fun p => p.sheet == m) =
        (l.filter (fun p => !(p.sheet == n))).filter (fun p => p.sheet == m) := by
      intro m hm
      rw [List.filter_filter]
      refine (List.filter_congr ?_).symm
      intro p _
      cases hpm : (p.sheet == m) with
      | false => simp
      | true =>
        have : p.sheet = m := by simpa using hpm
        subst this
        have : ¬ (p.sheet == n) = true := by
          simp only [beq_iff_eq]
          intro hh
          exact hnmem (hh ▸ hm)
        simp [this]
    have hall' : ∀ p ∈ l.filter (fun p => !(p.sheet == n)), p.sheet ∈ ns := by
      intro p hp
      have hmem := List.mem_of_mem_filter hp
      have hcond := List.of_mem_filter hp
      have hne : p.sheet ≠ n := by simpa using hcond
      rcases List.mem_cons.mp (hall p hmem) with hh | hh
      · exact absurd hh hne
      · exact hh
    have ih := sum_filter_sheets ns (l.filter (fun p => !(p.sheet == n))) hndns hall'
    have hlens : ∀ m ∈ ns, (l.filter (fun p => p.sheet == m)).length =
        ((l.filter (fun p => !(p.sheet == n))).filter (fun p => p.sheet == m)).length :=
      fun m hm => by rw [hfilters m hm]
    simp only [List.map_cons, List.sum_cons]
    rw [show ns.map (fun m => (l.filter (fun p => p.sheet == m)).length) =
        ns.map (fun m =>
          ((l.filter (fun p => !(p.sheet == n))).filter (fun p => p.sheet == m)).length)
      from List.map_congr_left hlens, ih]
    exact length_filter_add_length_filter_not l (fun p => p.sheet == n)

/-- Claim C8: in the final output, `families` is exactly the set of distinct
family values of the products, sorted ascending with no duplicates;
`totalFamilies` is its length; the `bySheet` counts sum to `totalProducts`,
which is the length of the product list. -/
theorem output_families_stats (wb : Workbook) (out : Output)
    (h : runExtract wb = .ok out) :
    out.families.Sorted (· ≤ ·) ∧
    out.families.Nodup ∧
    (∀ f, f ∈ out.families ↔ ∃ p ∈ out.products, p.family = f) ∧
    out.totalFamilies = out.families.length ∧
    out.totalProducts = out.products.length ∧
    (out.bySheet.map (fun e => e.2)).sum = out.totalProducts := by
  obtain ⟨stf, hf, rfl⟩ := runExtract_ok h
  have hFam : FamInv stf := by
    refine runFold_inv (P := FamInv)
      (fun cfg _ r _ s s' hs hP => processRow_famInv hs hP) hf ?_
    exact ⟨List.nodup_nil, fun f => ⟨fun hf => absurd hf (List.not_mem_nil f),
      fun ⟨p, hp, _⟩ => absurd hp (List.not_mem_nil p)⟩⟩
  have hSheet : SheetNameInv stf := by
    refine runFold_inv (P := SheetNameInv)
      (fun cfg hcfg r _ s s' hs hP =>
        processRow_sheetNameInv (List.mem_map_of_mem (fun c => c.name) hcfg) hs hP) hf ?_
    exact fun p hp => absurd hp (List.not_mem_nil p)
  have hperm := List.perm_insertionSort (α := String) (· ≤ ·) stf.all_families
  refine ⟨?_, ?_, ?_, rfl, rfl, ?_⟩
  · exact List.sorted_insertionSort (· ≤ ·) stf.all_families
  · exact hperm.nodup_iff.mpr hFam.1
  · intro f
    simp only [buildOutput]
    rw [hperm.mem_iff]
    exact hFam.2 f
  · simp only [buildOutput, List.map_map]
    have : (SHEETS.map ((fun e : String × Nat => e.2) ∘
        (fun c => (c.name, (stf.all_products.filter (fun p => p.sheet == c.name)).length)))) =
        (SHEETS.map (fun c => c.name)).map
          (fun n => (stf.all_products.filter (fun p => p.sheet == n)).length) := by
      rw [List.map_map]
      rfl
    rw [this]
    have hnd : (SHEETS.map (fun c => c.name)).Nodup := by decide
    exact sum_filter_sheets (SHEETS.map (fun c => c.name)) stf.all_products hnd
      (fun p hp => hSheet p hp)

def c8Wb : Workbook := fun n =>
  if n = "Cocina VITACURA" then
    some [[Cell.str "A", Cell.str "P1", Cell.str "FAM"],
          [Cell.str "B", Cell.str "P2"]]
  else some []

def c8Out : Output := (runExtract c8Wb).toOption.getD ⟨[], [], 0, 0, []⟩

/-- Claim C8 witness: on a concrete run with one classified and one blank
family, the output family list is `["FAM", "SIN CLASIFICAR"]`, sorted and
duplicate-free, and the statistics agree. -/
theorem output_families_stats_witness :
    c8Out.families = ["FAM", "SIN CLASIFICAR"] ∧
    c8Out.families.Sorted (· ≤ ·) ∧
    c8Out.families.Nodup ∧
    c8Out.totalFamilies = c8Out.families.length ∧
    (c8Out.bySheet.map (fun e => e.2)).sum = c8Out.totalProducts := by
  have h := output_families_stats c8Wb c8Out (by with_unfolding_all rfl)
  exact ⟨by with_unfolding_all rfl, h.1, h.2.1, h.2.2.2.1, h.2.2.2.2.2⟩

/-! ### Claim C5 (counterexample and amended statement) -/

def c5Wb : Workbook := fun n =>
  if n = "Cocina VITACURA" then
    some [[Cell.str "C1", Cell.str "N", Cell.none, Cell.num (-2)]]
  else some []

def c5Out : Output := (runExtract c5Wb).toOption.getD ⟨[], [], 0, 0, []⟩

def c5P : Product := c5Out.products.headD ⟨"", "", "", "", .UN, .UN, 0⟩

/-- Claim C5 counterexample: the claim as stated fails.  A factor cell of
`-2` passes `safe_float` unchanged (no clamping), survives the zero-reset and
the `1.0` sentinel test, and is emitted as `conversionFactor = -2`, which is
not strictly positive. -/
theorem conversionFactor_positive_cex :
    runExtract c5Wb = .ok c5Out ∧
    c5P ∈ c5Out.products ∧
    c5P.conversionFactor = -2 ∧
    ¬ 0 < c5P.conversionFactor := by
  refine ⟨by with_unfolding_all rfl, by with_unfolding_all decide,
    by with_unfolding_all rfl, ?_⟩
  have e : c5P.conversionFactor = -2 := by with_unfolding_all rfl
  rw [e]
  norm_num

/-- Rounding to four digits keeps a value that is at least `10 ^ (-4)`
strictly positive. -/
theorem round4_pos {q : ℚ} (h : 1 / 10000 ≤ q) : 0 < round4 q := by
  unfold round4
  have h1 : (1 : ℚ) ≤ q * 10000 := by linarith
  have hf : (1 : ℤ) ≤ ⌊q * 10000⌋ := by
    rw [Int.le_floor]
    exact_mod_cast h1
  have h2 : (1 : ℤ) ≤ roundHalfEven (q * 10000) := by
    unfold roundHalfEven
    split
    · exact hf
    · split
      · omega
      · split <;> omega
  have h3 : (0 : ℚ) < (roundHalfEven (q * 10000) : ℚ) := by exact_mod_cast h2
  positivity

/-- Per-row precondition of the amended positivity claim: the effective
factor-column value and the order-unit factor (when the order unit parses)
are at least `10 ^ (-4)`. -/
def rowPosOKB (cfg : SheetCfg) (row : Row) : Bool :=
  decide ((1 : ℚ) / 10000 ≤ rowFactor cfg row) &&
    (match parse_unit (orderUnitRaw cfg row) with
     | .ok (_, q) => decide ((1 : ℚ) / 10000 ≤ q)
     | .error _ => true)

/-- Positivity invariant over the aggregation state. -/
def PosInv (st : ExtractState) : Prop := ∀ p ∈ st.all_products, 0 < p.conversionFactor

theorem processRow_posInv {cfg : SheetCfg} {s : ExtractState} {r : Row} {s' : ExtractState}
    (hrow : rowPosOKB cfg r = true)
    (h : processRow cfg s r = .ok s') (hI : PosInv s) : PosInv s' := by
  rcases processRow_shape h with ⟨_, rfl⟩ | ⟨_, ou, ofac, hpu, rfl⟩
  · exact hI
  · intro p hp
    simp only [emitRow, List.mem_append, List.mem_singleton] at hp
    rcases hp with hp | rfl
    · exact hI p hp
    · unfold rowPosOKB at hrow
      rw [hpu] at hrow
      simp only [Bool.and_eq_true, decide_eq_true_eq] at hrow
      obtain ⟨hfac, hofac⟩ := hrow
      simp only [mkProduct]
      split
      · exact round4_pos hfac
      · exact round4_pos hofac

/-- Claim C5 amended: the `conversionFactor` of every emitted product is the
4-digit rounding of either the factor-column value or the order-unit factor,
and it is strictly positive PROVIDED every row's effective factor-column
value and parsed order-unit factor are at least `10 ^ (-4)`; without that
proviso a negative factor cell (or a zero order-unit factor) propagates into
a non-positive `conversionFactor`. -/
theorem conversionFactor_positive_amended (wb : Workbook) (out : Output)
    (hrows : ∀ cfg ∈ SHEETS, ∀ r ∈ (wb cfg.name).getD [], rowPosOKB cfg r = true)
    (h : runExtract wb = .ok out) :
    ∀ p ∈ out.products, 0 < p.conversionFactor := by
  obtain ⟨stf, hf, rfl⟩ := runExtract_ok h
  have hI : PosInv stf := by
    refine runFold_inv (P := PosInv)
      (fun cfg hcfg r hr s s' hs hP => processRow_posInv (hrows cfg hcfg r hr) hs hP) hf ?_
    exact fun p hp => absurd hp (List.not_mem_nil p)
  simpa [buildOutput] using hI

def c5wWb : Workbook := fun n =>
  if n = "Cocina VITACURA" then
    some [[Cell.str "C1", Cell.str "N", Cell.none, Cell.num 2]]
  else some []

def c5wOut : Output := (runExtract c5wWb).toOption.getD ⟨[], [], 0, 0, []⟩

def c5wP : Product := c5wOut.products.headD ⟨"", "", "", "", .UN, .UN, 0⟩

/-- Claim C5 amended witness: on a concrete run whose factor cell is `2`,
the emitted conversion factor is strictly positive. -/
theorem conversionFactor_positive_amended_witness : 0 < c5wP.conversionFactor :=
  conversionFactor_positive_amended c5wWb c5wOut (by with_unfolding_all decide)
    (by with_unfolding_all rfl) c5wP (by with_unfolding_all decide)

/-! ### Claim C4: helper lemmas for the amended pattern-rule theorem -/

theorem ws_char_cases {c : Char} (h : isPyWs c = true) :
    c = ' ' ∨ c = '\t' ∨ c = '\n' ∨ c = '\r' ∨ c = '\x0b' ∨ c = '\x0c' := by
  unfold isPyWs at h
  simp only [Bool.or_eq_true, beq_iff_eq] at h
  tauto

theorem numChar_not_ws {c : Char} (h : isNumChar c = true) : isPyWs c = false := by
  cases hw : isPyWs c
  · rfl
  · rcases ws_char_cases hw with rfl | rfl | rfl | rfl | rfl | rfl <;>
      exact absurd h (by decide)

theorem ws_toUpper {c : Char} (h : isPyWs c = true) : c.toUpper = c := by
  rcases ws_char_cases h with rfl | rfl | rfl | rfl | rfl | rfl <;> decide

theorem numChar_toUpper {c : Char} (h : isNumChar c = true) : c.toUpper = c := by
  unfold isNumChar at h
  simp only [Bool.or_eq_true, beq_iff_eq] at h
  rcases h with (h | rfl) | rfl
  · unfold isDigitCh at h
    simp only [Bool.and_eq_true, decide_eq_true_eq] at h
    obtain ⟨h48, h57⟩ := h
    unfold Char.toUpper
    rw [if_neg]
    rintro ⟨h97, _⟩
    omega
  · decide
  · decide

theorem numChar_not_x {c : Char} (h : isNumChar c = true) : ¬(c = 'x' ∨ c = 'X') := by
  rintro (rfl | rfl) <;> exact absurd h (by decide)

theorem dropWhile_append_all {p : Char → Bool} :
    ∀ {a : List Char} (b : List Char), (∀ c ∈ a, p c = true) →
      List.dropWhile p (a ++ b) = List.dropWhile p b
  | [], b, _ => rfl
  | x :: a, b, h => by
    rw [List.cons_append, List.dropWhile_cons,
      if_pos (h x (List.mem_cons_self x a))]
    exact dropWhile_append_all b (fun c hc => h c (List.mem_cons_of_mem x hc))

theorem dropWhile_head_neg {p : Char → Bool} {l : List Char}
    (h : ∀ c, l.head? = some c → p c = false) : List.dropWhile p l = l := by
  cases l with
  | nil => rfl
  | cons x t => rw [List.dropWhile_cons, if_neg (by rw [h x rfl]; simp)]

theorem takeWhile_append_all {p : Char → Bool} :
    ∀ {a : List Char} (b : List Char), (∀ c ∈ a, p c = true) →
      (∀ c, b.head? = some c → p c = false) →
      List.takeWhile p (a ++ b) = a
  | [], b, _, hb => by
    cases b with
    | nil => rfl
    | cons x t =>
      rw [List.nil_append, List.takeWhile_cons, if_neg (by rw [hb x rfl]; simp)]
  | x :: a, b, h, hb => by
    rw [List.cons_append, List.takeWhile_cons,
      if_pos (h x (List.mem_cons_self x a))]
    rw [takeWhile_append_all b (fun c hc => h c (List.mem_cons_of_mem x hc)) hb]

theorem pyStrip_eq_self {l : List Char}
    (hhead : ∀ c, l.head? = some c → isPyWs c = false)
    (hlast : ∀ c, l.getLast? = some c → isPyWs c = false) : pyStrip l = l := by
  unfold pyStrip
  rw [dropWhile_head_neg hhead, dropWhile_head_neg (fun c hc =>
    hlast c (by rwa [List.head?_reverse] at hc)), List.reverse_reverse]

theorem pyUpper_eq_self {l : List Char} (h : ∀ c ∈ l, c.toUpper = c) :
    pyUpper l = l := by
  unfold pyUpper
  rw [List.map_congr_left (g := id) h, List.map_id]

theorem stripKw_self : ∀ (kw rest : List Char), stripKw kw (kw ++ rest) = some rest
  | [], _ => rfl
  | k :: ks, rest => by
    rw [List.cons_append]
    unfold stripKw
    rw [if_pos rfl]
    exact stripKw_self ks rest

/-- `kwClash kw1 kw2` holds when the two keywords differ at some position
inside their common length, so matching `kw1` fails on any input that starts
with `kw2`. -/
def kwClash : List Char → List Char → Bool
  | k :: ks, c :: cs => if c = k then kwClash ks cs else true
  | _, _ => false

theorem stripKw_clash : ∀ {kw1 kw2 : List Char}, kwClash kw1 kw2 = true →
    ∀ (rest : List Char), stripKw kw1 (kw2 ++ rest) = none
  | [], [], h, _ => by cases h
  | [], _ :: _, h, _ => by cases h
  | _ :: _, [], h, _ => by cases h
  | k :: ks, c :: cs, h, rest => by
    unfold kwClash at h
    rw [List.cons_append]
    unfold stripKw
    by_cases hck : c = k
    · rw [if_pos hck] at h ⊢
      exact stripKw_clash h rest
  
    · rw [if_neg hck]

theorem runPat_clash (p : PatSpec) (kw2 tail : List Char)
    (h : kwClash p.kw kw2 = true) : runPat p (kw2 ++ tail) = none := by
  unfold runPat
  rw [stripKw_clash h tail]
  rfl

theorem optBindSome {α β : Type} (a : α) (f : α → Option β) : (some a).bind f = f a := rfl

/-- Shape of a suffix accepted by the mandatory `\s*KG` tail. -/
def KGSuffix (sfx : List Char) : Prop :=
  ∃ ws2 rest, sfx = ws2 ++ 'K' :: 'G' :: rest ∧ ∀ c ∈ ws2, isPyWs c = true

/-- Running one pattern on `keyword ++ whitespace ++ numeral ++ suffix`
extracts exactly the numeral. -/
theorem runPat_construct (p : PatSpec) (ws n sfx : List Char)
    (hws : ∀ c ∈ ws, isPyWs c = true)
    (hwsreq : p.wsOpt = true ∨ ws ≠ [])
    (hnall : ∀ c ∈ n, isNumChar c = true) (hn0 : n ≠ [])
    (hsfx : ∀ c, sfx.head? = some c → isNumChar c = false)
    (hkg : p.needsKG = true → KGSuffix sfx) :
    runPat p (p.kw ++ (ws ++ (n ++ sfx))) = some n := by
  obtain ⟨nh, nt, rfl⟩ : ∃ nh nt, n = nh :: nt := by
    cases n with
    | nil => exact absurd rfl hn0
    | cons a b => exact ⟨a, b, rfl⟩
  have hnh : isNumChar nh = true := hnall nh (List.mem_cons_self nh nt)
  have hdropn : List.dropWhile isPyWs ((nh :: nt) ++ sfx) = (nh :: nt) ++ sfx :=
    dropWhile_head_neg (fun c hc => by
      rw [List.cons_append, List.head?_cons] at hc
      cases hc
      exact numChar_not_ws hnh)
  have hwsstep : wsStep p.wsOpt (ws ++ ((nh :: nt) ++ sfx)) = some ((nh :: nt) ++ sfx) := by
    cases hopt : p.wsOpt with
    | true =>
      unfold wsStep
      rw [if_pos rfl, dropWhile_append_all _ hws, hdropn]
    | false =>
      rcases hwsreq with h | h
      · rw [hopt] at h; cases h
      · obtain ⟨w, wt, rfl⟩ : ∃ w wt, ws = w :: wt := by
          cases ws with
          | nil => exact absurd rfl h
          | cons a b => exact ⟨a, b, rfl⟩
        unfold wsStep
        rw [if_neg (by simp), List.cons_append]
        show (if isPyWs w = true then
            some (List.dropWhile isPyWs (wt ++ ((nh :: nt) ++ sfx))) else none) =
          some ((nh :: nt) ++ sfx)
        rw [if_pos (hws w (List.mem_cons_self w wt)),
          dropWhile_append_all _ (fun c hc => hws c (List.mem_cons_of_mem w hc)), hdropn]
  have hxstep : xStep p.xInfix ((nh :: nt) ++ sfx) = (nh :: nt) ++ sfx := by
    cases hx : p.xInfix with
    | false => unfold xStep; rw [if_neg (by simp)]
    | true =>
      unfold xStep
      rw [if_pos rfl, List.cons_append]
      show (if nh = 'x' ∨ nh = 'X' then List.dropWhile isPyWs (nt ++ sfx)
          else nh :: (nt ++ sfx)) = nh :: (nt ++ sfx)
      rw [if_neg (numChar_not_x hnh)]
  have htake : ((nh :: nt) ++ sfx).takeWhile isNumChar = nh :: nt :=
    takeWhile_append_all sfx hnall hsfx
  unfold runPat
  rw [stripKw_self]
  simp only [optBindSome]
  rw [hwsstep]
  simp only [optBindSome]
  rw [hxstep, htake]
  rw [if_neg (by simp)]
  cases hkgb : p.needsKG with
  | false => rfl
  | true =>
    obtain ⟨ws2, rest, rfl, hws2⟩ := hkg hkgb
    have hkgchk : checkKG (ws2 ++ 'K' :: 'G' :: rest) = true := by
      unfold checkKG
      rw [dropWhile_append_all _ hws2, dropWhile_head_neg (fun c hc => by
        rw [List.head?_cons] at hc
        cases hc
        decide)]
      rfl
    rw [List.drop_left, hkgchk]
    rfl

theorem getLast?_append_concat (l1 l2 : List Char) (a : Char) :
    (l1 ++ (l2 ++ [a])).getLast? = some a := by
  rw [List.getLast?_append, List.getLast?_concat]
  rfl

/-- A decimal numeral over `[\d.,]` with at most one fractional separator
and at least one digit. -/
def IsNumeral (n : List Char) : Prop :=
  (∀ c ∈ n, isNumChar c = true) ∧
  n.countP (fun c => c == '.' || c == ',') ≤ 1 ∧
  n.any isDigitCh = true

/-- The numeric value of a numeral (after comma-to-dot normalization). -/
def numVal (n : List Char) : ℚ := ddVal (dotNorm n)

theorem pyFloatDD_numeral {n : List Char} (h : IsNumeral n) :
    pyFloatDD n = some (numVal n) := by
  obtain ⟨hall, hcnt, hdig⟩ := h
  have hcond : (∀ c ∈ dotNorm n, isDigitCh c = true ∨ c = '.') ∧
      (dotNorm n).countP (fun c => c == '.') ≤ 1 ∧
      (dotNorm n).any isDigitCh = true := by
    refine ⟨?_, ?_, ?_⟩
    · intro c hc
      obtain ⟨c0, hc0, rfl⟩ := List.mem_map.mp hc
      have hnc := hall c0 hc0
      by_cases hcom : c0 = ','
      · subst hcom
        right
        simp
      · unfold isNumChar at hnc
        simp only [Bool.or_eq_true, beq_iff_eq] at hnc
        rcases hnc with (hd | rfl) | rfl
        · left
          simpa [hcom] using hd
        · right
          simp
        · exact absurd rfl hcom
    · unfold dotNorm
      rw [List.countP_map]
      rw [List.countP_congr]
      · exact hcnt
      · intro c _
        by_cases hcom : c = ','
        · subst hcom
          simp [Function.comp]
        · simp [Function.comp, hcom]
    · unfold dotNorm
      rw [List.any_map]
      rw [List.any_eq_true] at hdig ⊢
      obtain ⟨c0, hc0, hd⟩ := hdig
      refine ⟨c0, hc0, ?_⟩
      show isDigitCh (if c0 == ',' then '.' else c0) = true
      by_cases hcom : c0 = ','
      · subst hcom
        exact absurd hd (by decide)
      · simpa [hcom] using hd
  unfold pyFloatDD
  rw [if_pos hcond]
  rfl

/-- The ten pattern rules as named data. -/
inductive PatRule
  | bidon | bolsa | botella | bandeja | paquete | frasco | pote | tarro | saco | unidad
  deriving DecidableEq

def ruleSpec : PatRule → PatSpec
  | .bidon => PAT_BIDON
  | .bolsa => PAT_BOLSA
  | .botella => PAT_BOTELLA
  | .bandeja => PAT_BANDEJA
  | .paquete => PAT_PAQUETE
  | .frasco => PAT_FRASCO
  | .pote => PAT_POTE
  | .tarro => PAT_TARRO
  | .saco => PAT_SACO
  | .unidad => PAT_UNIDAD

def ruleUnit : PatRule → CanonicalUnit
  | .bidon => .BIDONES
  | .bolsa => .BOLSAS
  | .botella => .BOTELLAS
  | .bandeja => .BANDEJAS
  | .paquete => .PAQUETES
  | .frasco => .FRASCOS
  | .pote => .POTES
  | .tarro => .TARROS
  | .saco => .SACOS
  | .unidad => .UN

theorem tryPats_cons_hit {p : PatSpec} {u : CanonicalUnit}
    {rest : List (PatSpec × CanonicalUnit)} {l n : List Char} {q : ℚ}
    (h1 : runPat p l = some n) (h2 : pyFloatDD n = some q) :
    tryPats ((p, u) :: rest) l = .ok (u, q) := by
  unfold tryPats
  rw [h1]
  show (match pyFloatDD n with
    | some q => Except.ok (u, q)
    | none => Except.error PyErr.valueError) = Except.ok (u, q)
  rw [h2]

theorem tryPats_cons_miss {p : PatSpec} {u : CanonicalUnit}
    {rest : List (PatSpec × CanonicalUnit)} {l : List Char}
    (h : runPat p l = none) :
    tryPats ((p, u) :: rest) l = tryPats rest l := by
  show (match runPat p l with
    | some g =>
      (match pyFloatDD g with
       | some q => Except.ok (u, q)
       | none => Except.error PyErr.valueError)
    | none => tryPats rest l) = tryPats rest l
  rw [h]

theorem mem_of_getLast?_eq_some {l : List Char} {a : Char} (h : l.getLast? = some a) :
    a ∈ l := by
  rcases List.eq_nil_or_concat l with rfl | ⟨l2, b, rfl⟩
  · simp at h
  · rw [List.concat_eq_append, List.getLast?_concat] at h
    cases h
    rw [List.concat_eq_append]
    exact List.mem_append_right _ (List.mem_singleton_self _)

theorem getLast?_append_ne (l1 : List Char) {l2 : List Char} (h : l2 ≠ []) :
    (l1 ++ l2).getLast? = l2.getLast? := by
  rcases List.eq_nil_or_concat l2 with rfl | ⟨l', a, rfl⟩
  · exact absurd rfl h
  · rw [List.concat_eq_append, getLast?_append_concat l1 l' a, List.getLast?_concat]

/-- Claim C4 (amended): for each pattern rule, a string of the shape
`keyword ++ whitespace ++ numeral ++ suffix` that is not a literal-table key
parses to that rule's unit with the numeral's value as factor, where —
correcting the claim — the whitespace is mandatory except for the PAQUETE
and FRASCO rules, and the suffix is an arbitrary ignored tail for the
BIDON / BOTELLA / BANDEJA / PAQUETE rules but must be whitespace followed by
`KG` for the weight rules (BOLSA, FRASCO, POTE, TARRO, SACO, UNIDAD); the
rules are tried in the fixed source order and the first match wins. -/
theorem pattern_rules_amended (r : PatRule) (ws n sfx : List Char)
    (hws : ∀ c ∈ ws, isPyWs c = true)
    (hwsreq : (ruleSpec r).wsOpt = true ∨ ws ≠ [])
    (hn : IsNumeral n)
    (hsfx_head : ∀ c, sfx.head? = some c → isNumChar c = false)
    (hsfx_last : ∀ c, sfx.getLast? = some c → isPyWs c = false)
    (hsfx_upper : ∀ c ∈ sfx, c.toUpper = c)
    (hkg : (ruleSpec r).needsKG = true → KGSuffix sfx)
    (hdir : directLookup ((ruleSpec r).kw ++ (ws ++ (n ++ sfx))) = Option.none) :
    parse_unit (String.mk ((ruleSpec r).kw ++ (ws ++ (n ++ sfx)))) =
      .ok (ruleUnit r, numVal n) := by
  obtain ⟨hnall, hncnt, hndig⟩ := hn
  have hn0 : n ≠ [] := by
    intro he
    rw [he] at hndig
    exact absurd hndig (by decide)
  have hkwfacts : ∃ k kt, (ruleSpec r).kw = k :: kt ∧ isPyWs k = false ∧
      (∀ c ∈ (ruleSpec r).kw, c.toUpper = c) := by
    cases r <;> exact ⟨_, _, rfl, by decide, by decide⟩
  obtain ⟨k, kt, hkweq, hkws, hkwup⟩ := hkwfacts
  have hhead : ∀ c, ((ruleSpec r).kw ++ (ws ++ (n ++ sfx))).head? = some c →
      isPyWs c = false := by
    intro c hc
    rw [hkweq, List.cons_append, List.head?_cons] at hc
    cases hc
    exact hkws
  have hlast : ∀ c, ((ruleSpec r).kw ++ (ws ++ (n ++ sfx))).getLast? = some c →
      isPyWs c = false := by
    intro c hc
    rcases List.eq_nil_or_concat sfx with hse | ⟨sl, a, hse⟩
    · subst hse
      rw [List.append_nil] at hc
      rw [getLast?_append_ne _ (by
          intro hx
          exact hn0 (List.append_eq_nil.mp hx).2),
        getLast?_append_ne _ hn0] at hc
      have hcm : c ∈ n := mem_of_getLast?_eq_some hc
      exact numChar_not_ws (hnall c hcm)
    · subst hse
      rw [List.concat_eq_append] at hc
      rw [getLast?_append_ne _ (by simp), getLast?_append_ne _ (by simp),
        getLast?_append_ne _ (by simp), List.getLast?_concat] at hc
      cases hc
      exact hsfx_last c (by rw [List.concat_eq_append, List.getLast?_concat])
  have hupper : ∀ c ∈ (ruleSpec r).kw ++ (ws ++ (n ++ sfx)), c.toUpper = c := by
    intro c hc
    rcases List.mem_append.mp hc with h | h
    · exact hkwup c h
    · rcases List.mem_append.mp h with h | h
      · exact ws_toUpper (hws c h)
      · rcases List.mem_append.mp h with h | h
        · exact numChar_toUpper (hnall c h)
        · exact hsfx_upper c h
  have hfdd := pyFloatDD_numeral ⟨hnall, hncnt, hndig⟩
  unfold parse_unit
  rw [if_neg (by
    intro h
    have h2 : (ruleSpec r).kw ++ (ws ++ (n ++ sfx)) = ([] : List Char) :=
      congrArg String.data h
    rw [hkweq] at h2
    simp at h2)]
  have hdata : (String.mk ((ruleSpec r).kw ++ (ws ++ (n ++ sfx)))).data =
      (ruleSpec r).kw ++ (ws ++ (n ++ sfx)) := rfl
  rw [hdata, pyStrip_eq_self hhead hlast, pyUpper_eq_self hupper, hdir]
  show tryPats patList ((ruleSpec r).kw ++ (ws ++ (n ++ sfx))) =
    Except.ok (ruleUnit r, numVal n)
  cases r with
  | bidon =>
    simp only [ruleSpec, ruleUnit, patList]
    rw [tryPats_cons_hit
      (runPat_construct PAT_BIDON ws n sfx hws hwsreq hnall hn0 hsfx_head hkg) hfdd]
  | bolsa =>
    simp only [ruleSpec, ruleUnit, patList]
    rw [tryPats_cons_miss (runPat_clash PAT_BIDON PAT_BOLSA.kw _ (by decide)),
      tryPats_cons_hit
        (runPat_construct PAT_BOLSA ws n sfx hws hwsreq hnall hn0 hsfx_head hkg) hfdd]
  | botella =>
    simp only [ruleSpec, ruleUnit, patList]
    rw [tryPats_cons_miss (runPat_clash PAT_BIDON PAT_BOTELLA.kw _ (by decide)),
      tryPats_cons_miss (runPat_clash PAT_BOLSA PAT_BOTELLA.kw _ (by decide)),
      tryPats_cons_hit
        (runPat_construct PAT_BOTELLA ws n sfx hws hwsreq hnall hn0 hsfx_head hkg) hfdd]
  | bandeja =>
    simp only [ruleSpec, ruleUnit, patList]
    rw [tryPats_cons_miss (runPat_clash PAT_BIDON PAT_BANDEJA.kw _ (by decide)),
      tryPats_cons_miss (runPat_clash PAT_BOLSA PAT_BANDEJA.kw _ (by decide)),
      tryPats_cons_miss (runPat_clash PAT_BOTELLA PAT_BANDEJA.kw _ (by decide)),
      tryPats_cons_hit
        (runPat_construct PAT_BANDEJA ws n sfx hws hwsreq hnall hn0 hsfx_head hkg) hfdd]
  | paquete =>
    simp only [ruleSpec, ruleUnit, patList]
    rw [tryPats_cons_miss (runPat_clash PAT_BIDON PAT_PAQUETE.kw _ (by decide)),
      tryPats_cons_miss (runPat_clash PAT_BOLSA PAT_PAQUETE.kw _ (by decide)),
      tryPats_cons_miss (runPat_clash PAT_BOTELLA PAT_PAQUETE.kw _ (by decide)),
      tryPats_cons_miss (runPat_clash PAT_BANDEJA PAT_PAQUETE.kw _ (by decide)),
      tryPats_cons_hit
        (runPat_construct PAT_PAQUETE ws n sfx hws hwsreq hnall hn0 hsfx_head hkg) hfdd]
  | frasco =>
    simp only [ruleSpec, ruleUnit, patList]
    rw [tryPats_cons_miss (runPat_clash PAT_BIDON PAT_FRASCO.kw _ (by decide)),
      tryPats_cons_miss (runPat_clash PAT_BOLSA PAT_FRASCO.kw _ (by decide)),
      tryPats_cons_miss (runPat_clash PAT_BOTELLA PAT_FRASCO.kw _ (by decide)),
      tryPats_cons_miss (runPat_clash PAT_BANDEJA PAT_FRASCO.kw _ (by decide)),
      tryPats_cons_miss (runPat_clash PAT_PAQUETE PAT_FRASCO.kw _ (by decide)),
      tryPats_cons_hit
        (runPat_construct PAT_FRASCO ws n sfx hws hwsreq hnall hn0 hsfx_head hkg) hfdd]
  | pote =>
    simp only [ruleSpec, ruleUnit, patList]
    rw [tryPats_cons_miss (runPat_clash PAT_BIDON PAT_POTE.kw _ (by decide)),
      tryPats_cons_miss (runPat_clash PAT_BOLSA PAT_POTE.kw _ (by decide)),
      tryPats_cons_miss (runPat_clash PAT_BOTELLA PAT_POTE.kw _ (by decide)),
      tryPats_cons_miss (runPat_clash PAT_BANDEJA PAT_POTE.kw _ (by decide)),
      tryPats_cons_miss (runPat_clash PAT_PAQUETE PAT_POTE.kw _ (by decide)),
      tryPats_cons_miss (runPat_clash PAT_FRASCO PAT_POTE.kw _ (by decide)),
      tryPats_cons_hit
        (runPat_construct PAT_POTE ws n sfx hws hwsreq hnall hn0 hsfx_head hkg) hfdd]
  | tarro =>
    simp only [ruleSpec, ruleUnit, patList]
    rw [tryPats_cons_miss (runPat_clash PAT_BIDON PAT_TARRO.kw _ (by decide)),
      tryPats_cons_miss (runPat_clash PAT_BOLSA PAT_TARRO.kw _ (by decide)),
      tryPats_cons_miss (runPat_clash PAT_BOTELLA PAT_TARRO.kw _ (by decide)),
      tryPats_cons_miss (runPat_clash PAT_BANDEJA PAT_TARRO.kw _ (by decide)),
      tryPats_cons_miss (runPat_clash PAT_PAQUETE PAT_TARRO.kw _ (by decide)),
      tryPats_cons_miss (runPat_clash PAT_FRASCO PAT_TARRO.kw _ (by decide)),
      tryPats_cons_miss (runPat_clash PAT_POTE PAT_TARRO.kw _ (by decide)),
      tryPats_cons_hit
        (runPat_construct PAT_TARRO ws n sfx hws hwsreq hnall hn0 hsfx_head hkg) hfdd]
  | saco =>
    simp only [ruleSpec, ruleUnit, patList]
    rw [tryPats_cons_miss (runPat_clash PAT_BIDON PAT_SACO.kw _ (by decide)),
      tryPats_cons_miss (runPat_clash PAT_BOLSA PAT_SACO.kw _ (by decide)),
      tryPats_cons_miss (runPat_clash PAT_BOTELLA PAT_SACO.kw _ (by decide)),
      tryPats_cons_miss (runPat_clash PAT_BANDEJA PAT_SACO.kw _ (by decide)),
      tryPats_cons_miss (runPat_clash PAT_PAQUETE PAT_SACO.kw _ (by decide)),
      tryPats_cons_miss (runPat_clash PAT_FRASCO PAT_SACO.kw _ (by decide)),
      tryPats_cons_miss (runPat_clash PAT_POTE PAT_SACO.kw _ (by decide)),
      tryPats_cons_miss (runPat_clash PAT_TARRO PAT_SACO.kw _ (by decide)),
      tryPats_cons_hit
        (runPat_construct PAT_SACO ws n sfx hws hwsreq hnall hn0 hsfx_head hkg) hfdd]
  | unidad =>
    simp only [ruleSpec, ruleUnit, patList]
    rw [tryPats_cons_miss (runPat_clash PAT_BIDON PAT_UNIDAD.kw _ (by decide)),
      tryPats_cons_miss (runPat_clash PAT_BOLSA PAT_UNIDAD.kw _ (by decide)),
      tryPats_cons_miss (runPat_clash PAT_BOTELLA PAT_UNIDAD.kw _ (by decide)),
      tryPats_cons_miss (runPat_clash PAT_BANDEJA PAT_UNIDAD.kw _ (by decide)),
      tryPats_cons_miss (runPat_clash PAT_PAQUETE PAT_UNIDAD.kw _ (by decide)),
      tryPats_cons_miss (runPat_clash PAT_FRASCO PAT_UNIDAD.kw _ (by decide)),
      tryPats_cons_miss (runPat_clash PAT_POTE PAT_UNIDAD.kw _ (by decide)),
      tryPats_cons_miss (runPat_clash PAT_TARRO PAT_UNIDAD.kw _ (by decide)),
      tryPats_cons_miss (runPat_clash PAT_SACO PAT_UNIDAD.kw _ (by decide)),
      tryPats_cons_hit
        (runPat_construct PAT_UNIDAD ws n sfx hws hwsreq hnall hn0 hsfx_head hkg) hfdd]

/-- Claim C4 amended witness: the POTE rule applied to `"POTE 0,9 KG"`
(mandatory whitespace, comma numeral, mandatory `KG` suffix) yields
`(POTES, 0.9)`. -/
theorem pattern_rules_amended_witness :
    parse_unit "POTE 0,9 KG" = .ok (.POTES, numVal ['0', ',', '9']) ∧
    numVal ['0', ',', '9'] = 9 / 10 := by
  constructor
  · have h := pattern_rules_amended PatRule.pote [' '] ['0', ',', '9'] [' ', 'K', 'G']
      (by decide)
      (Or.inr (by decide))
      (by refine ⟨?_, ?_, ?_⟩ <;> decide)
      (by
        intro c hc
        rw [List.head?_cons] at hc
        cases hc
        decide)
      (by
        intro c hc
        rw [show ([' ', 'K', 'G'] : List Char).getLast? = some 'G' from by decide] at hc
        cases hc
        decide)
      (by decide)
      (fun _ => ⟨[' '], [], rfl, by decide⟩)
      (by decide)
    have e : String.mk ((ruleSpec PatRule.pote).kw ++
        ([' '] ++ (['0', ',', '9'] ++ [' ', 'K', 'G']))) = "POTE 0,9 KG" := by decide
    rw [e] at h
    exact h
  · with_unfolding_all rfl
